import Mathlib

/-!
Verification development for the Barossa Council development-application
scraper (src/scraper.js, second variant, lines 227-451).  The pure core of
the program is embedded shallowly: string normalisation, strict date
parsing, the row-acceptance predicate and record construction, the page
count computation, the pagination loop, the inline-script token parser and
the two sqlite insert policies.
-/

namespace BarossaScraper

/-- Whitespace test modelling the JavaScript character class backslash-s
(space, tab, line feed, vertical tab, form feed, carriage return and
no-break space), which is also the set removed by String.prototype.trim. -/
def isWs (c : Char) : Bool :=
  c == ' ' || c == Char.ofNat 9 || c == Char.ofNat 10 || c == Char.ofNat 11 ||
  c == Char.ofNat 12 || c == Char.ofNat 13 || c == Char.ofNat 160

/-- Digit test for the character class [0-9]. -/
def isDigitChar (c : Char) : Bool :=
  decide (48 ≤ c.toNat) && decide (c.toNat ≤ 57)

/-- Removal of trailing whitespace, the right half of String.prototype.trim:
a character is dropped when it is whitespace and everything after it was
dropped as well. -/
def trimRight : List Char → List Char
  | [] => []
  | c :: rest =>
    let r := trimRight rest
    if r.isEmpty && isWs c then [] else c :: r

/-- JavaScript String.prototype.trim: drop leading and trailing whitespace. -/
def jsTrim (s : String) : String :=
  String.mk (trimRight (s.data.dropWhile isWs))

/-- Replacement applied to one maximal whitespace run by the regular
expression replace of two-or-more whitespace characters with a single
space: a run of length at least two becomes one space, a shorter run is
kept unchanged. -/
def flushRun (run : List Char) : List Char :=
  if 2 ≤ run.length then [' '] else run

/-- Worker for collapseWs: run accumulates the current maximal whitespace
run, which is flushed whenever a non-whitespace character or the end of the
input is reached. -/
def collapseGo : List Char → List Char → List Char
  | run, [] => flushRun run
  | run, c :: rest =>
    if isWs c then collapseGo (run ++ [c]) rest
    else flushRun run ++ (c :: collapseGo [] rest)

/-- The global regular-expression replace in retrieveFullAddress, replacing
each maximal run of two or more whitespace characters with a single space. -/
def collapseWs (l : List Char) : List Char :=
  collapseGo [] l

/-- Pure core of retrieveFullAddress (src/scraper.js line 307-308): the
scraped detail-page text is normalised by collapsing doubled whitespace and
trimming both ends. -/
def retrieveFullAddress (raw : String) : String :=
  jsTrim (String.mk (collapseWs raw.data))

/-- Calendar date as year, month and day numbers. -/
structure CalDate where
  year : Nat
  month : Nat
  day : Nat
deriving Repr, DecidableEq

/-- Gregorian leap-year rule, as implemented by the moment library. -/
def isLeapYear (y : Nat) : Bool :=
  (y % 4 == 0 && y % 100 != 0) || y % 400 == 0

/-- Number of days in a month of a given year. -/
def daysInMonth (y m : Nat) : Nat :=
  if m = 2 then (if isLeapYear y then 29 else 28)
  else if m = 4 ∨ m = 6 ∨ m = 9 ∨ m = 11 then 30
  else 31

/-- Calendar validity of a parsed date, the check performed by
moment(...).isValid() after a strict-format parse. -/
def dateValid (d : CalDate) : Bool :=
  decide (1 ≤ d.month) && decide (d.month ≤ 12) &&
  decide (1 ≤ d.day) && decide (d.day ≤ daysInMonth d.year d.month)

/-- Value of a digit string, the conversion applied by the parser to each
matched digit group. -/
def digitsToNat (l : List Char) : Nat :=
  l.foldl (fun n c => 10 * n + (c.toNat - 48)) 0

/-- Split of a character list on a separator character, modelling the
grouping of the input into the slash-separated fields of the date format. -/
def splitOnChar (sep : Char) : List Char → List (List Char)
  | [] => [[]]
  | c :: rest =>
    let r := splitOnChar sep rest
    if c == sep then [] :: r
    else
      match r with
      | [] => [[c]]
      | g :: gs => (c :: g) :: gs

/-- Strict parse in the moment format D/MM/YYYY (src/scraper.js line 406):
the day is one or two digits, the month exactly two, the year exactly four,
the separators are literal slashes, the whole input must be consumed, and
the result must be a valid calendar date; otherwise the parse is invalid. -/
def parseDMY (s : String) : Option CalDate :=
  match splitOnChar (Char.ofNat 47) s.data with
  | [ds, ms, ys] =>
    if (ds.length == 1 || ds.length == 2) && ds.all isDigitChar &&
        ms.length == 2 && ms.all isDigitChar &&
        ys.length == 4 && ys.all isDigitChar then
      let c : CalDate :=
        { year := digitsToNat ys, month := digitsToNat ms, day := digitsToNat ds }
      if dateValid c then some c else none
    else none
  | _ => none

/-- Two-digit zero padding used by the moment format tokens MM and DD. -/
def pad2 (n : Nat) : String :=
  if n < 10 then "0" ++ toString n else toString n

/-- Four-digit zero padding used by the moment format token YYYY. -/
def pad4 (n : Nat) : String :=
  if n < 10 then "000" ++ toString n
  else if n < 100 then "00" ++ toString n
  else if n < 1000 then "0" ++ toString n
  else toString n

/-- Formatting of a date in the moment format YYYY-MM-DD. -/
def formatYMD (d : CalDate) : String :=
  pad4 d.year ++ "-" ++ pad2 d.month ++ "-" ++ pad2 d.day

/-- Test of the unanchored regular expression of one-or-more digits followed
by anything (src/scraper.js line 408): it succeeds exactly when the string
contains at least one digit. -/
def digitTest (s : String) : Bool :=
  s.data.any isDigitChar

/-- Predicate written in the specification: the council reference starts
with one or more digits. -/
def startsWithDigits (s : String) : Bool :=
  match s.data with
  | [] => false
  | c :: _ => isDigitChar c

/-- Base URL of the portal. -/
def DevelopmentApplicationsBaseUrl : String :=
  "https://epayments.barossa.sa.gov.au/ePathway/Production/Web"

/-- Default page URL, stored in each record as the information URL. -/
def DevelopmentApplicationsDefaultUrl : String :=
  DevelopmentApplicationsBaseUrl ++ "/default.aspx"

/-- Static contact address stored in each record. -/
def CommentUrl : String :=
  "mailto:barossa@barossa.sa.gov.au"

/-- Record handed to insertRow (src/scraper.js lines 416-424). -/
structure DevelopmentApplication where
  applicationNumber : String
  address : String
  description : String
  informationUrl : String
  commentUrl : String
  scrapeDate : String
  receivedDate : String
deriving Repr, DecidableEq

/-- One results-table row as seen by the extractor: the texts of its td
cells, together with the text scraped from the Formatted Property Address
cell of its detail page (the environment the detail-page dereference
observes; a missing cell yields the empty string, never undefined). -/
structure RawRow where
  cells : List String
  detailAddress : String
deriving Repr, DecidableEq

/-- Row extraction and record construction, the body of the table-row loop
in main (src/scraper.js lines 402-427): a row needs at least four cells;
the trimmed application number must contain a digit and the trimmed second
cell must parse strictly as D/MM/YYYY; the detail-page address is
normalised and the record is dropped when it is empty; otherwise the record
handed to insertRow is built, with the sentinel description for an empty
description cell and the received date reformatted (the empty-string
fallback mirrors the dead ternary branch of line 423). -/
def extractRecord (today : CalDate) (row : RawRow) : Option DevelopmentApplication :=
  if 4 ≤ row.cells.length then
    let applicationNumber := jsTrim (row.cells.getD 0 "")
    let receivedDate := parseDMY (jsTrim (row.cells.getD 1 ""))
    let description := jsTrim (row.cells.getD 3 "")
    if digitTest applicationNumber && receivedDate.isSome then
      let address := retrieveFullAddress row.detailAddress
      if address ≠ "" then
        some
          { applicationNumber := applicationNumber
            address := address
            description := if description = "" then "No description provided" else description
            informationUrl := DevelopmentApplicationsDefaultUrl
            commentUrl := CommentUrl
            scrapeDate := formatYMD today
            receivedDate :=
              match receivedDate with
              | some d => formatYMD d
              | none => "" }
      else none
    else none
  else none

/-- Records extracted from a list of rows, in order. -/
def extractRecords (today : CalDate) (rows : List RawRow) : List DevelopmentApplication :=
  rows.filterMap (extractRecord today)

/-- Key membership in the persisted table. -/
def hasKey (table : List DevelopmentApplication) (k : String) : Bool :=
  table.any (fun r => r.applicationNumber == k)

/-- Row stored under a key, the first row whose council reference matches. -/
def lookupKey (table : List DevelopmentApplication) (k : String) : Option DevelopmentApplication :=
  table.find? (fun r => r.applicationNumber == k)

/-- Number of rows stored under a key. -/
def countKey (table : List DevelopmentApplication) (k : String) : Nat :=
  (table.filter (fun r => r.applicationNumber == k)).length

/-- Primary-key integrity of a table: no key occurs twice. -/
def nodupKeys : List DevelopmentApplication → Bool
  | [] => true
  | r :: rest => !hasKey rest r.applicationNumber && nodupKeys rest

/-- The sqlite statement insert-or-ignore on the primary key
council_reference (src/scraper.js line 258): a row whose key is present is
skipped, otherwise the row is added. -/
def insertRowIgnore (table : List DevelopmentApplication) (r : DevelopmentApplication) :
    List DevelopmentApplication :=
  if hasKey table r.applicationNumber then table else table ++ [r]

/-- The sqlite statement insert-or-replace on the primary key
council_reference (src/scraper.js line 32): any row with the same key is
removed and the new row is inserted. -/
def insertRowReplace (table : List DevelopmentApplication) (r : DevelopmentApplication) :
    List DevelopmentApplication :=
  table.filter (fun x => !(x.applicationNumber == r.applicationNumber)) ++ [r]

/-- Persistence of a run's records under the insert-or-ignore policy. -/
def persistAllIgnore (table : List DevelopmentApplication)
    (rows : List DevelopmentApplication) : List DevelopmentApplication :=
  rows.foldl insertRowIgnore table

/-- Persistence of a run's records under the insert-or-replace policy. -/
def persistAllReplace (table : List DevelopmentApplication)
    (rows : List DevelopmentApplication) : List DevelopmentApplication :=
  rows.foldl insertRowReplace table

/-- Last record of a run carrying a given key, the content the replace
policy leaves stored under that key. -/
def lastKeyed (rows : List DevelopmentApplication) (k : String) :
    Option DevelopmentApplication :=
  rows.foldl (fun acc r => if r.applicationNumber == k then some r else acc) none

/-- Trailing digits of the page-count label, the text matched by the
regular expression of one-or-more digits anchored at the end. -/
def trailingDigits (s : String) : List Char :=
  (s.data.reverse.takeWhile isDigitChar).reverse

/-- Page count computation (src/scraper.js line 397).  The regular
expression match yields null when the label has no trailing digits, and
reading element zero of null throws a TypeError; that crash is modelled as
none.  When the match succeeds the count is the matched number clamped to
at least one (the or-one guard never fires, since a number at least one is
truthy). -/
def pageCountFromLabel (s : String) : Option Nat :=
  match trailingDigits s with
  | [] => none
  | ds => some (max 1 (digitsToNat ds))

/-- One iteration of the pagination do-while loop (src/scraper.js lines
398-448), counting processed pages from the current pageNumber state: the
page is processed and pageNumber incremented; the loop breaks once
pageNumber exceeds pageCount; otherwise the next page is fetched and the
loop continues while pageNumber is at most pageCount or at least fifty (the
null test of the source is dropped because pageCount is always a number).
The count of processed pages is returned. -/
def paginateFrom (pageCount : Nat) (pageNumber : Nat) : Nat :=
  if pageCount < pageNumber + 1 then 1
  else if pageNumber + 1 ≤ pageCount ∨ 50 ≤ pageNumber + 1 then
    1 + paginateFrom pageCount (pageNumber + 1)
  else 1
termination_by pageCount - pageNumber
decreasing_by
  simp_wf
  omega

/-- Total number of pages the pagination loop processes for a reported page
count, starting from pageNumber one. -/
def pagesProcessed (pageCount : Nat) : Nat :=
  paginateFrom pageCount 1

/-- The marker searched for inside inline script blocks. -/
def aspxJsMarker : List Char :=
  [Char.ofNat 46, 'a', 's', 'p', 'x', Char.ofNat 63, 'j', 's', Char.ofNat 61]

/-- Index of the first occurrence of a pattern in a character list. -/
def substrIdxAux (pat : List Char) : List Char → Option Nat
  | [] => if pat.isPrefixOf ([] : List Char) then some 0 else none
  | c :: t =>
    if pat.isPrefixOf (c :: t) then some 0
    else Option.map (fun n => n + 1) (substrIdxAux pat t)

/-- Index of the first character satisfying a predicate at or after a start
position, the behaviour of indexOf with a from-index. -/
def idxOfFrom (p : Char → Bool) : List Char → Nat → Option Nat
  | [], _ => none
  | c :: t, 0 => if p c then some 0 else Option.map (fun j => j + 1) (idxOfFrom p t 0)
  | _ :: t, n + 1 => Option.map (fun j => j + 1) (idxOfFrom p t n)

/-- The single-quote character. -/
def quoteChar : Char := Char.ofNat 39

/-- The double-quote character. -/
def doubleQuoteChar : Char := Char.ofNat 34

/-- Replacement of every double quote by a single quote, the global
regular-expression replace on src/scraper.js line 291. -/
def replQuote (c : Char) : Char :=
  if c == doubleQuoteChar then quoteChar else c

/-- Token extraction from one script block (src/scraper.js lines 287-294):
find the marker, then search the quote-normalised text for the next single
quote strictly after the end of the marker, and return the original text
between; a missing marker, a missing terminator or an empty token yields
nothing for this block. -/
def parseTokenScript (text : String) : Option String :=
  match substrIdxAux aspxJsMarker text.data with
  | none => none
  | some i =>
    let start := i + aspxJsMarker.length
    match idxOfFrom (fun c => c == quoteChar) (text.data.map replQuote) start with
    | none => none
    | some e =>
      if start < e then some (String.mk ((text.data.drop start).take (e - start)))
      else none

/-- parseToken (src/scraper.js lines 284-297) over the list of inline
script texts of the page: the first script block yielding a token wins,
otherwise null. -/
def parseToken : List String → Option String
  | [] => none
  | s :: rest =>
    match parseTokenScript s with
    | some t => some t
    | none => parseToken rest

/-- Modelled from the spec: token extraction from one script block as the
specification words it, taking the substring strictly between the first
occurrence of the marker and the next following quote character, double or
single, in the original text. -/
def parseTokenScriptSpec (text : String) : Option String :=
  match substrIdxAux aspxJsMarker text.data with
  | none => none
  | some i =>
    let start := i + aspxJsMarker.length
    match idxOfFrom (fun c => c == doubleQuoteChar || c == quoteChar) text.data start with
    | none => none
    | some e =>
      if start < e then some (String.mk ((text.data.drop start).take (e - start)))
      else none

/-- Modelled from the spec: the specification-worded token parser over the
script blocks of the page. -/
def parseTokenSpec : List String → Option String
  | [] => none
  | s :: rest =>
    match parseTokenScriptSpec s with
    | some t => some t
    | none => parseTokenSpec rest

/-- Extra token GET requests the bootstrapper issues (src/scraper.js lines
322-327): one request when a token was parsed, none otherwise. -/
def tokenFetchUrls (scripts : List String) : List String :=
  match parseToken scripts with
  | some t => [DevelopmentApplicationsDefaultUrl ++ "?js=" ++ t]
  | none => []

/-- No-double-whitespace predicate on a character list: no two adjacent
characters are both whitespace. -/
def noDouble : List Char → Bool
  | [] => true
  | [_] => true
  | c :: d :: rest => !(isWs c && isWs d) && noDouble (d :: rest)

/-- No doubled internal whitespace in a string. -/
def noDoubleWhitespace (s : String) : Bool :=
  noDouble s.data

/-- Absence of leading whitespace. -/
def noLeadingWhitespace (s : String) : Bool :=
  match s.data with
  | [] => true
  | c :: _ => !isWs c

/-- Absence of trailing whitespace. -/
def noTrailingWhitespace (s : String) : Bool :=
  match s.data.getLast? with
  | some c => !isWs c
  | none => true

/-- Lexicographic order on strings by character code, the comparison the
specification's receivedDate-at-most-scrapeDate property performs on
ISO-formatted dates. -/
def lexLE : List Char → List Char → Bool
  | [], _ => true
  | _ :: _, [] => false
  | a :: as, b :: bs =>
    if a == b then lexLE as bs else decide (a.toNat < b.toNat)

/-- Closed form of the pagination loop: starting below or at the reported
page count, the loop processes exactly the remaining pages, because the
internal break on exceeding the page count is the only exit and the
disjunct comparing the counter with fifty keeps the continuation condition
true rather than stopping the loop. -/
lemma paginateFrom_eq : ∀ (k pc pn : Nat), pc - pn = k → pn ≤ pc →
    paginateFrom pc pn = pc + 1 - pn := by
  intro k
  induction k with
  | zero =>
    intro pc pn hk hle
    unfold paginateFrom
    rw [if_pos (by omega)]
    omega
  | succ n ih =>
    intro pc pn hk hle
    unfold paginateFrom
    rw [if_neg (by omega), if_pos (Or.inl (by omega))]
    have h := ih pc (pn + 1) (by omega) (by omega)
    omega

/-- C1: the claim that the pagination loop never processes more than fifty
pages fails on the code: with a reported page count of one hundred the loop
processes one hundred pages.  The fifty-page comparison sits in the
continuation disjunction of the do-while, so it can only keep the loop
running, never stop it; the sole exit is the break once the counter exceeds
the reported count. -/
theorem C1_fifty_page_cap_violated :
    pagesProcessed 100 = 100 ∧ 50 < pagesProcessed 100 := by
  have h := paginateFrom_eq 99 100 1 (by omega) (by omega)
  unfold pagesProcessed
  omega

/-- C2: the claim that every page-count label text yields the count one
when no trailing integer is present fails on the code: on the empty label
text the regular-expression match is null and reading its element zero
throws, modelled here as none; a label with a trailing integer is read
normally. -/
theorem C2_page_count_label_crash :
    pageCountFromLabel "" = none ∧
    pageCountFromLabel "Results" = none ∧
    pageCountFromLabel "Page 1 of 3" = some 3 := by
  decide

/-- A list of at most one character has no doubled whitespace. -/
lemma noDouble_short : ∀ {l : List Char}, l.length ≤ 1 → noDouble l = true := by
  intro l h
  match l with
  | [] => rfl
  | [c] => rfl
  | a :: b :: t => simp at h

/-- Doubled-whitespace freedom passes to the tail. -/
lemma noDouble_tail : ∀ {c : Char} {l : List Char},
    noDouble (c :: l) = true → noDouble l = true := by
  intro c l h
  cases l with
  | nil => rfl
  | cons d rest =>
    rw [noDouble, Bool.and_eq_true] at h
    exact h.2

/-- A non-whitespace character can be prepended to any list free of doubled
whitespace. -/
lemma noDouble_cons_of_not_ws : ∀ {c : Char} {l : List Char},
    isWs c = false → noDouble l = true → noDouble (c :: l) = true := by
  intro c l hc h
  cases l with
  | nil => rfl
  | cons d rest =>
    rw [noDouble, hc]
    simpa using h

/-- Flushing an all-whitespace run yields nothing or a single whitespace
character. -/
lemma flushRun_allWs : ∀ (run : List Char), run.all isWs = true →
    flushRun run = [] ∨ ∃ w, flushRun run = [w] ∧ isWs w = true := by
  intro run hrun
  by_cases h2 : 2 ≤ run.length
  · right
    refine ⟨' ', ?_, by decide⟩
    unfold flushRun
    rw [if_pos h2]
  · cases run with
    | nil =>
      left
      rfl
    | cons c t =>
      cases t with
      | nil =>
        right
        refine ⟨c, ?_, by simpa using hrun⟩
        unfold flushRun
        rw [if_neg h2]
      | cons d u => simp at h2

/-- Collapsing doubled whitespace leaves no two adjacent whitespace
characters, for any pending all-whitespace run. -/
lemma noDouble_collapseGo : ∀ (l run : List Char), run.all isWs = true →
    noDouble (collapseGo run l) = true := by
  intro l
  induction l with
  | nil =>
    intro run hrun
    rcases flushRun_allWs run hrun with h | ⟨w, hw, hwws⟩
    · rw [collapseGo, h]
      rfl
    · rw [collapseGo, hw]
      rfl
  | cons c rest ih =>
    intro run hrun
    rw [collapseGo]
    by_cases hc : isWs c = true
    · rw [if_pos hc]
      apply ih
      simp [List.all_append, hrun, hc]
    · rw [if_neg (by simpa using hc)]
      have hcb : isWs c = false := by
        revert hc
        cases isWs c <;> simp
      have htail : noDouble (c :: collapseGo [] rest) = true :=
        noDouble_cons_of_not_ws hcb (ih [] rfl)
      rcases flushRun_allWs run hrun with h | ⟨w, hw, hwws⟩
      · rw [h]
        simpa using htail
      · rw [hw]
        rw [List.singleton_append, noDouble, hcb]
        simpa using htail

/-- The collapsed form of any text has no doubled whitespace. -/
lemma noDouble_collapseWs (l : List Char) : noDouble (collapseWs l) = true :=
  noDouble_collapseGo l [] rfl

/-- Dropping a whitespace prefix preserves doubled-whitespace freedom. -/
lemma noDouble_dropWhile : ∀ {l : List Char}, noDouble l = true →
    noDouble (l.dropWhile isWs) = true := by
  intro l h
  induction l with
  | nil => simpa using h
  | cons c rest ih =>
    rw [List.dropWhile_cons]
    split
    · exact ih (noDouble_tail h)
    · exact h

/-- The head surviving a whitespace-dropping pass is not whitespace. -/
lemma dropWhile_head_not_ws : ∀ {l : List Char} {c : Char} {r : List Char},
    l.dropWhile isWs = c :: r → isWs c = false := by
  intro l
  induction l with
  | nil =>
    intro c r h
    simp at h
  | cons a rest ih =>
    intro c r h
    rw [List.dropWhile_cons] at h
    split at h
    · exact ih h
    · next ha =>
      injection h with h1 h2
      rw [← h1]
      revert ha
      cases isWs a <;> simp

/-- A nonempty right-trimmed list starts with the head of the input. -/
lemma trimRight_head : ∀ {l : List Char} {c : Char} {r : List Char},
    trimRight l = c :: r → ∃ t, l = c :: t := by
  intro l c r h
  cases l with
  | nil => simp [trimRight] at h
  | cons a rest =>
    rw [trimRight] at h
    split at h
    · simp at h
    · injection h with h1 h2
      subst h1
      exact ⟨rest, rfl⟩

/-- Trimming trailing whitespace preserves doubled-whitespace freedom. -/
lemma noDouble_trimRight : ∀ {l : List Char}, noDouble l = true →
    noDouble (trimRight l) = true := by
  intro l h
  induction l with
  | nil => rfl
  | cons c rest ih =>
    rw [trimRight]
    split
    · rfl
    · have h2 : noDouble (trimRight rest) = true := ih (noDouble_tail h)
      cases htr : trimRight rest with
      | nil => rfl
      | cons x xs =>
        obtain ⟨t, ht⟩ := trimRight_head htr
        subst ht
        rw [noDouble] at h ⊢
        rw [htr] at h2
        rw [Bool.and_eq_true] at h ⊢
        exact ⟨h.1, h2⟩

/-- The last character surviving a right trim is not whitespace. -/
lemma trimRight_getLast_not_ws : ∀ {l : List Char} {c : Char},
    (trimRight l).getLast? = some c → isWs c = false := by
  intro l
  induction l with
  | nil =>
    intro c h
    simp [trimRight] at h
  | cons a rest ih =>
    intro c h
    rw [trimRight] at h
    split at h
    · simp at h
    · next hcond =>
      cases htr : trimRight rest with
      | nil =>
        rw [htr] at h hcond
        simp at h hcond
        subst h
        simpa using hcond
      | cons x xs =>
        rw [htr] at h
        rw [List.getLast?_cons_cons] at h
        apply ih
        rw [htr]
        exact h

/-- The normalised detail-page address is trimmed on both ends and free of
doubled internal whitespace. -/
lemma retrieveFullAddress_norm (raw : String) :
    noLeadingWhitespace (retrieveFullAddress raw) = true ∧
    noTrailingWhitespace (retrieveFullAddress raw) = true ∧
    noDoubleWhitespace (retrieveFullAddress raw) = true := by
  have hdata : (retrieveFullAddress raw).data =
      trimRight ((collapseWs raw.data).dropWhile isWs) := rfl
  refine ⟨?_, ?_, ?_⟩
  · rw [noLeadingWhitespace, hdata]
    cases htr : trimRight ((collapseWs raw.data).dropWhile isWs) with
    | nil => rfl
    | cons c r =>
      obtain ⟨t, ht⟩ := trimRight_head htr
      show (!isWs c) = true
      rw [dropWhile_head_not_ws ht]
      rfl
  · rw [noTrailingWhitespace, hdata]
    cases hl : (trimRight ((collapseWs raw.data).dropWhile isWs)).getLast? with
    | none => rfl
    | some c =>
      show (!isWs c) = true
      rw [trimRight_getLast_not_ws hl]
      rfl
  · rw [noDoubleWhitespace, hdata]
    exact noDouble_trimRight (noDouble_dropWhile (noDouble_collapseWs raw.data))

/-- A successful strict parse yields a valid calendar date. -/
lemma parseDMY_valid : ∀ {s : String} {d : CalDate},
    parseDMY s = some d → dateValid d = true := by
  intro s d h
  unfold parseDMY at h
  split at h
  · dsimp only [] at h
    split_ifs at h with h1 h2
    · rw [Option.some_inj] at h
      rw [← h]
      exact h2
  · exact absurd h (by simp)

/-- A formatted date is never the empty string (the ISO format contains two
hyphens). -/
lemma formatYMD_ne_empty (d : CalDate) : formatYMD d ≠ "" := by
  intro h
  have hlen : (formatYMD d).length = 0 := by
    rw [h]
    rfl
  unfold formatYMD at hlen
  rw [String.length_append, String.length_append, String.length_append,
    String.length_append] at hlen
  have hone : ("-" : String).length = 1 := rfl
  rw [hone] at hlen
  omega

/-- Inversion of the row extractor: a produced record came from a row with
at least four cells whose trimmed application number contains a digit and
whose trimmed second cell parsed strictly; its fields are the normalised
cell texts, the constants, the formatted run date and the formatted parsed
received date, and its address is the nonempty normalised detail-page
address. -/
lemma extractRecord_inversion : ∀ {today : CalDate} {row : RawRow}
    {r : DevelopmentApplication}, extractRecord today row = some r →
    4 ≤ row.cells.length ∧
    digitTest (jsTrim (row.cells.getD 0 "")) = true ∧
    (parseDMY (jsTrim (row.cells.getD 1 ""))).isSome = true ∧
    retrieveFullAddress row.detailAddress ≠ "" ∧
    r.applicationNumber = jsTrim (row.cells.getD 0 "") ∧
    r.address = retrieveFullAddress row.detailAddress ∧
    r.description = (if jsTrim (row.cells.getD 3 "") = ""
      then "No description provided" else jsTrim (row.cells.getD 3 "")) ∧
    r.informationUrl = DevelopmentApplicationsDefaultUrl ∧
    r.commentUrl = CommentUrl ∧
    r.scrapeDate = formatYMD today ∧
    (∃ d, parseDMY (jsTrim (row.cells.getD 1 "")) = some d ∧
      r.receivedDate = formatYMD d) := by
  intro today row r h
  unfold extractRecord at h
  dsimp only [] at h
  split_ifs at h with h1 h2 h3 h4
  · rw [Option.some_inj] at h
    rw [Bool.and_eq_true] at h2
    obtain ⟨d, hd⟩ := Option.isSome_iff_exists.mp h2.2
    subst h
    refine ⟨h1, h2.1, h2.2, h3, rfl, rfl, ?_, rfl, rfl, rfl, d, hd, ?_⟩
    · rw [if_pos h4]
    · simp only [hd]
  · rw [Option.some_inj] at h
    rw [Bool.and_eq_true] at h2
    obtain ⟨d, hd⟩ := Option.isSome_iff_exists.mp h2.2
    subst h
    refine ⟨h1, h2.1, h2.2, h3, rfl, rfl, ?_, rfl, rfl, rfl, d, hd, ?_⟩
    · rw [if_neg h4]
    · simp only [hd]

/-- Concrete run date used by the closed instances below. -/
def todayW : CalDate := { year := 2024, month := 2, day := 1 }

/-- Concrete accepted results-table row with a doubled-whitespace detail
address. -/
def rowW : RawRow :=
  { cells := ["10/2024/1", "3/01/2024", "", "Fence"]
    detailAddress := "12  Smith  St Nuriootpa SA 5355" }

/-- Record the extractor produces from rowW on the run date todayW. -/
def recW : DevelopmentApplication :=
  { applicationNumber := "10/2024/1"
    address := "12 Smith St Nuriootpa SA 5355"
    description := "Fence"
    informationUrl := DevelopmentApplicationsDefaultUrl
    commentUrl := CommentUrl
    scrapeDate := "2024-02-01"
    receivedDate := "2024-01-03" }

/-- Concrete accepted row whose application number does not start with a
digit. -/
def rowA1 : RawRow :=
  { cells := ["A1", "3/01/2024", "", "Fence"], detailAddress := "12 Smith St" }

/-- Record the extractor produces from rowA1 on the run date todayW. -/
def recA1 : DevelopmentApplication :=
  { applicationNumber := "A1"
    address := "12 Smith St"
    description := "Fence"
    informationUrl := DevelopmentApplicationsDefaultUrl
    commentUrl := CommentUrl
    scrapeDate := "2024-02-01"
    receivedDate := "2024-01-03" }

/-- Concrete accepted row whose received date lies after the run date. -/
def rowFuture : RawRow :=
  { cells := ["10/2024/1", "1/01/2999", "", "Fence"], detailAddress := "12 Smith St" }

/-- Record the extractor produces from rowFuture on the run date todayW. -/
def recFuture : DevelopmentApplication :=
  { applicationNumber := "10/2024/1"
    address := "12 Smith St"
    description := "Fence"
    informationUrl := DevelopmentApplicationsDefaultUrl
    commentUrl := CommentUrl
    scrapeDate := "2024-02-01"
    receivedDate := "2999-01-01" }

/-- Concrete accepted row with an empty description cell. -/
def rowND : RawRow :=
  { cells := ["11/2024/2", "4/01/2024", "", ""], detailAddress := "5 Hill Rd" }

/-- Record the extractor produces from rowND on the run date todayW. -/
def recND : DevelopmentApplication :=
  { applicationNumber := "11/2024/2"
    address := "5 Hill Rd"
    description := "No description provided"
    informationUrl := DevelopmentApplicationsDefaultUrl
    commentUrl := CommentUrl
    scrapeDate := "2024-02-01"
    receivedDate := "2024-01-04" }

/-- C3 counterexample: the extractor accepts, and the run persists, a
record whose council reference A1 does not start with a digit, because the
source tests an unanchored digit regular expression. -/
theorem C3_counterexample_accepts_A1 :
    extractRecord todayW rowA1 = some recA1 ∧
    startsWithDigits recA1.applicationNumber = false := by
  decide

/-- C3 (amended): for every row accepted by the extractor, and hence for
every persisted record, the council reference contains at least one digit. -/
theorem C3_councilReference_contains_digit (today : CalDate) (row : RawRow)
    (r : DevelopmentApplication) (h : extractRecord today row = some r) :
    digitTest r.applicationNumber = true := by
  obtain ⟨-, hdig, -, -, happ, -⟩ := extractRecord_inversion h
  rw [happ]
  exact hdig

/-- Closed instance of the amended C3 theorem at the concrete row rowA1. -/
theorem C3_councilReference_contains_digit_witness :
    digitTest recA1.applicationNumber = true :=
  C3_councilReference_contains_digit todayW rowA1 recA1 (by decide)

/-- C4: every record handed to the persister has a non-empty address with
no leading or trailing whitespace and no two adjacent internal whitespace
characters, and a row whose resolved address normalises to the empty
string is discarded before persistence. -/
theorem C4_address_invariant :
    (∀ (today : CalDate) (row : RawRow) (r : DevelopmentApplication),
      extractRecord today row = some r →
      r.address ≠ "" ∧ noLeadingWhitespace r.address = true ∧
      noTrailingWhitespace r.address = true ∧ noDoubleWhitespace r.address = true)
    ∧ (∀ (today : CalDate) (row : RawRow),
      retrieveFullAddress row.detailAddress = "" → extractRecord today row = none) := by
  constructor
  · intro today row r h
    obtain ⟨-, -, -, hne, -, haddr, -⟩ := extractRecord_inversion h
    rw [haddr]
    obtain ⟨hl, ht, hd⟩ := retrieveFullAddress_norm row.detailAddress
    exact ⟨hne, hl, ht, hd⟩
  · intro today row hempty
    unfold extractRecord
    dsimp only []
    split_ifs with h1 h2 h3
    · exact absurd hempty h3
    all_goals rfl

/-- Closed instance of the C4 theorem at the concrete row rowW, whose raw
detail address carries doubled spaces. -/
theorem C4_address_invariant_witness :
    extractRecord todayW rowW = some recW ∧
    (recW.address ≠ "" ∧ noLeadingWhitespace recW.address = true ∧
     noTrailingWhitespace recW.address = true ∧ noDoubleWhitespace recW.address = true) :=
  ⟨by decide, C4_address_invariant.1 todayW rowW recW (by decide)⟩

/-- C5 counterexample: the extractor persists a record whose received date
2999-01-01 lies strictly after the scrape date 2024-02-01, because the code
never compares the lodgement date with the run date; so receivedDate is
neither empty nor at most scrapeDate. -/
theorem C5_counterexample_future_date :
    extractRecord todayW rowFuture = some recFuture ∧
    recFuture.receivedDate ≠ "" ∧
    lexLE recFuture.receivedDate.data recFuture.scrapeDate.data = false := by
  decide

/-- C5 (amended): for every persisted record, receivedDate is either the
empty string or the YYYY-MM-DD formatting of a valid calendar date; the
claimed bound by scrapeDate is dropped, since the code never enforces it. -/
theorem C5_receivedDate_valid_iso (today : CalDate) (row : RawRow)
    (r : DevelopmentApplication) (h : extractRecord today row = some r) :
    r.receivedDate = "" ∨ ∃ d, dateValid d = true ∧ r.receivedDate = formatYMD d := by
  obtain ⟨-, -, -, -, -, -, -, -, -, -, d, hd, hr⟩ := extractRecord_inversion h
  exact Or.inr ⟨d, parseDMY_valid hd, hr⟩

/-- Closed instance of the amended C5 theorem at the concrete row rowW. -/
theorem C5_receivedDate_valid_iso_witness :
    recW.receivedDate = "" ∨ ∃ d, dateValid d = true ∧ recW.receivedDate = formatYMD d :=
  C5_receivedDate_valid_iso todayW rowW recW (by decide)

/-- C6: a table row yields a candidate record only if it has at least four
cells and its trimmed second cell parses strictly as a D/MM/YYYY calendar
date; the date text 31/02/2024 does not parse, and a row carrying it is
excluded from persistence entirely. -/
theorem C6_row_acceptance :
    (∀ (today : CalDate) (row : RawRow) (r : DevelopmentApplication),
      extractRecord today row = some r →
      4 ≤ row.cells.length ∧ (parseDMY (jsTrim (row.cells.getD 1 ""))).isSome = true)
    ∧ parseDMY "31/02/2024" = none
    ∧ extractRecord todayW
        { cells := ["10/2024/1", "31/02/2024", "x", "Fence"]
          detailAddress := "12 Smith St" } = none := by
  refine ⟨?_, by decide, by decide⟩
  intro today row r h
  obtain ⟨h4, -, hsome, -⟩ := extractRecord_inversion h
  exact ⟨h4, hsome⟩

/-- Closed instance of the C6 theorem at the concrete row rowW. -/
theorem C6_row_acceptance_witness :
    4 ≤ rowW.cells.length ∧ (parseDMY (jsTrim (rowW.cells.getD 1 ""))).isSome = true :=
  C6_row_acceptance.1 todayW rowW recW (by decide)

/-- C7: for every accepted row, an empty trimmed description cell yields
exactly the sentinel description, and a non-empty trimmed description cell
is stored unchanged. -/
theorem C7_description_sentinel (today : CalDate) (row : RawRow)
    (r : DevelopmentApplication) (h : extractRecord today row = some r) :
    (jsTrim (row.cells.getD 3 "") = "" → r.description = "No description provided") ∧
    (jsTrim (row.cells.getD 3 "") ≠ "" → r.description = jsTrim (row.cells.getD 3 "")) := by
  obtain ⟨-, -, -, -, -, -, hdesc, -⟩ := extractRecord_inversion h
  constructor
  · intro he
    rw [hdesc, if_pos he]
  · intro he
    rw [hdesc, if_neg he]

/-- Closed instance of the C7 theorem at the concrete row rowND, whose
description cell is empty. -/
theorem C7_description_sentinel_witness :
    extractRecord todayW rowND = some recND ∧
    recND.description = "No description provided" :=
  ⟨by decide, (C7_description_sentinel todayW rowND recND (by decide)).1 (by decide)⟩

/-- C10: every record handed to the persister has a non-empty receivedDate
formatted from the validly parsed lodgement date: the empty-string fallback
of the record construction is unreachable because the acceptance predicate
already requires a successful strict parse. -/
theorem C10_receivedDate_nonempty (today : CalDate) (row : RawRow)
    (r : DevelopmentApplication) (h : extractRecord today row = some r) :
    ∃ d, parseDMY (jsTrim (row.cells.getD 1 "")) = some d ∧ dateValid d = true ∧
      r.receivedDate = formatYMD d ∧ r.receivedDate ≠ "" := by
  obtain ⟨-, -, -, -, -, -, -, -, -, -, d, hd, hr⟩ := extractRecord_inversion h
  refine ⟨d, hd, parseDMY_valid hd, hr, ?_⟩
  rw [hr]
  exact formatYMD_ne_empty d

/-- Closed instance of the C10 theorem at the concrete row rowW. -/
theorem C10_receivedDate_nonempty_witness :
    ∃ d, parseDMY (jsTrim (rowW.cells.getD 1 "")) = some d ∧ dateValid d = true ∧
      recW.receivedDate = formatYMD d ∧ recW.receivedDate ≠ "" :=
  C10_receivedDate_nonempty todayW rowW recW (by decide)

/-- A character of the quote-normalised text is a single quote exactly when
the original character is a double or a single quote. -/
lemma replQuote_eq_quote (c : Char) :
    (replQuote c == quoteChar) = (c == doubleQuoteChar || c == quoteChar) := by
  by_cases h : c = doubleQuoteChar
  · simp [replQuote, h]
  · simp [replQuote, h]

/-- Searching the quote-normalised text for a single quote finds the same
position as searching the original text for either quote character. -/
lemma idxOfFrom_replQuote : ∀ (l : List Char) (n : Nat),
    idxOfFrom (fun c => c == quoteChar) (l.map replQuote) n =
    idxOfFrom (fun c => c == doubleQuoteChar || c == quoteChar) l n := by
  intro l
  induction l with
  | nil =>
    intro n
    rfl
  | cons c t ih =>
    intro n
    cases n with
    | zero =>
      rw [List.map_cons, idxOfFrom, idxOfFrom]
      rw [replQuote_eq_quote c, ih 0]
    | succ m =>
      rw [List.map_cons, idxOfFrom, idxOfFrom]
      rw [ih m]

/-- The token extracted from one script block by the code equals the token
the specification describes for that block. -/
lemma parseTokenScript_eq_spec (text : String) :
    parseTokenScript text = parseTokenScriptSpec text := by
  unfold parseTokenScript parseTokenScriptSpec
  cases h : substrIdxAux aspxJsMarker text.data with
  | none => rfl
  | some i =>
    dsimp only []
    rw [idxOfFrom_replQuote]

/-- The code's token parser agrees with the specification-worded parser on
every list of script blocks. -/
lemma parseToken_eq_spec : ∀ (scripts : List String),
    parseToken scripts = parseTokenSpec scripts := by
  intro scripts
  induction scripts with
  | nil => rfl
  | cons s rest ih =>
    rw [parseToken, parseTokenSpec, parseTokenScript_eq_spec s]
    cases parseTokenScriptSpec s with
    | none => exact ih
    | some t => rfl

/-- C8: for every page body, parseToken returns exactly the token the
specification describes, the substring strictly between the first marker
occurrence in a script block and the next following quote character when a
non-empty terminated token exists, and null otherwise; and when it returns
null the bootstrapper issues no extra token GET. -/
theorem C8_parseToken_refines_spec :
    (∀ (scripts : List String), parseToken scripts = parseTokenSpec scripts)
    ∧ (∀ (scripts : List String), parseToken scripts = none →
      tokenFetchUrls scripts = []) := by
  refine ⟨parseToken_eq_spec, ?_⟩
  intro scripts h
  unfold tokenFetchUrls
  rw [h]

/-- Closed instance of the C8 theorem on a page whose single script block
carries no marker. -/
theorem C8_parseToken_refines_spec_witness :
    parseToken ["var a = 1;"] = parseTokenSpec ["var a = 1;"] ∧
    tokenFetchUrls ["var a = 1;"] = [] :=
  ⟨C8_parseToken_refines_spec.1 ["var a = 1;"],
   C8_parseToken_refines_spec.2 ["var a = 1;"] (by decide)⟩

/-- Counting a key in a table, cons step. -/
lemma countKey_cons (a : DevelopmentApplication) (t : List DevelopmentApplication)
    (k : String) :
    countKey (a :: t) k =
    if (a.applicationNumber == k) = true then countKey t k + 1 else countKey t k := by
  unfold countKey
  rw [List.filter_cons]
  by_cases h : (a.applicationNumber == k) = true <;> simp [h]

/-- A key absent from a table is counted zero times. -/
lemma countKey_eq_zero_of_not_hasKey : ∀ {t : List DevelopmentApplication} {k : String},
    hasKey t k = false → countKey t k = 0 := by
  intro t
  induction t with
  | nil =>
    intro k h
    rfl
  | cons a rest ih =>
    intro k h
    rw [hasKey, List.any_cons, Bool.or_eq_false_iff] at h
    rw [countKey_cons, if_neg (by rw [h.1]; simp)]
    exact ih h.2

/-- A table with pairwise distinct keys stores every key at most once. -/
lemma nodup_countKey_le_one : ∀ {t : List DevelopmentApplication} (k : String),
    nodupKeys t = true → countKey t k ≤ 1 := by
  intro t
  induction t with
  | nil =>
    intro k h
    simp [countKey]
  | cons a rest ih =>
    intro k h
    rw [nodupKeys, Bool.and_eq_true] at h
    rw [countKey_cons]
    by_cases ha : (a.applicationNumber == k) = true
    · rw [if_pos ha]
      have hk : a.applicationNumber = k := by simpa using ha
      have hfalse : hasKey rest k = false := by
        rw [← hk]
        have h1 := h.1
        rw [Bool.not_eq_true'] at h1
        exact h1
      rw [countKey_eq_zero_of_not_hasKey hfalse]
    · rw [if_neg ha]
      exact ih k h.2

/-- Inserting under the ignore policy into a duplicate-free table leaves at
most one row under the inserted key. -/
lemma countKey_insertRowIgnore_le_one (t : List DevelopmentApplication)
    (r : DevelopmentApplication) (h : nodupKeys t = true) :
    countKey (insertRowIgnore t r) r.applicationNumber ≤ 1 := by
  unfold insertRowIgnore
  split_ifs with hk
  · exact nodup_countKey_le_one _ h
  · have hk0 : hasKey t r.applicationNumber = false := by
      revert hk
      cases hasKey t r.applicationNumber <;> simp
    have h0 := countKey_eq_zero_of_not_hasKey hk0
    unfold countKey at h0 ⊢
    rw [List.filter_append, List.length_append, h0]
    simp [List.filter_cons]

/-- Inserting under the replace policy leaves exactly one row under the
inserted key, so never more than one. -/
lemma countKey_insertRowReplace_le_one (t : List DevelopmentApplication)
    (r : DevelopmentApplication) :
    countKey (insertRowReplace t r) r.applicationNumber ≤ 1 := by
  unfold insertRowReplace countKey
  rw [List.filter_append, List.length_append]
  have h0 : ((t.filter (fun x => !(x.applicationNumber == r.applicationNumber))).filter
      (fun x => x.applicationNumber == r.applicationNumber)).length = 0 := by
    rw [List.length_eq_zero, List.filter_eq_nil_iff]
    intro x hx
    have hq := (List.mem_filter.mp hx).2
    rw [Bool.not_eq_true'] at hq
    rw [hq]
    simp
  rw [h0]
  simp [List.filter_cons]

/-- Inserting a record under the ignore policy makes its key present. -/
lemma hasKey_insertRowIgnore_self (t : List DevelopmentApplication)
    (r : DevelopmentApplication) :
    hasKey (insertRowIgnore t r) r.applicationNumber = true := by
  unfold insertRowIgnore
  split_ifs with h
  · exact h
  · unfold hasKey
    rw [List.any_append]
    simp [List.any_cons]

/-- Keys present before an ignore-policy insert stay present. -/
lemma hasKey_insertRowIgnore_mono {t : List DevelopmentApplication} {k : String}
    (r : DevelopmentApplication) (h : hasKey t k = true) :
    hasKey (insertRowIgnore t r) k = true := by
  unfold insertRowIgnore
  split_ifs with hk
  · exact h
  · unfold hasKey at h ⊢
    rw [List.any_append, h]
    rfl

/-- Keys present before a run of ignore-policy inserts stay present. -/
lemma hasKey_persistAllIgnore_mono : ∀ (rows t : List DevelopmentApplication)
    (k : String), hasKey t k = true → hasKey (persistAllIgnore t rows) k = true := by
  intro rows
  induction rows with
  | nil =>
    intro t k h
    exact h
  | cons a rs ih =>
    intro t k h
    unfold persistAllIgnore
    rw [List.foldl_cons]
    exact ih (insertRowIgnore t a) k (hasKey_insertRowIgnore_mono a h)

/-- After persisting a run under the ignore policy, every persisted key is
present in the table. -/
lemma persistAllIgnore_keys_present : ∀ (rows t : List DevelopmentApplication)
    (r : DevelopmentApplication), r ∈ rows →
    hasKey (persistAllIgnore t rows) r.applicationNumber = true := by
  intro rows
  induction rows with
  | nil =>
    intro t r hr
    cases hr
  | cons a rs ih =>
    intro t r hr
    unfold persistAllIgnore
    rw [List.foldl_cons]
    rcases List.mem_cons.mp hr with heq | hmem
    · subst heq
      exact hasKey_persistAllIgnore_mono rs (insertRowIgnore t r) _
        (hasKey_insertRowIgnore_self t r)
    · exact ih (insertRowIgnore t a) r hmem

/-- Persisting a run under the ignore policy is a no-op when every key of
the run is already present. -/
lemma persistAllIgnore_noop : ∀ (rows t : List DevelopmentApplication),
    (∀ r ∈ rows, hasKey t r.applicationNumber = true) →
    persistAllIgnore t rows = t := by
  intro rows
  induction rows with
  | nil =>
    intro t _
    rfl
  | cons a rs ih =>
    intro t hall
    unfold persistAllIgnore
    rw [List.foldl_cons]
    have ha : insertRowIgnore t a = t := by
      unfold insertRowIgnore
      rw [if_pos (hall a (List.mem_cons_self a rs))]
    rw [ha]
    exact ih t (fun r hr => hall r (List.mem_cons_of_mem a hr))

/-- Running the ignore-policy persistence twice over the same record list
adds nothing on the second run. -/
lemma persistAllIgnore_idem (t rows : List DevelopmentApplication) :
    persistAllIgnore (persistAllIgnore t rows) rows = persistAllIgnore t rows :=
  persistAllIgnore_noop rows (persistAllIgnore t rows)
    (fun r hr => persistAllIgnore_keys_present rows t r hr)

/-- Filtering out one key leaves lookups of other keys unchanged. -/
lemma find?_filter_ne (t : List DevelopmentApplication) (k kr : String)
    (hne : (kr == k) = false) :
    (t.filter (fun x => !(x.applicationNumber == kr))).find?
      (fun x => x.applicationNumber == k) =
    t.find? (fun x => x.applicationNumber == k) := by
  induction t with
  | nil => rfl
  | cons a rest ih =>
    rw [List.filter_cons]
    cases ha : a.applicationNumber == kr with
    | true =>
      rw [if_neg (by simp)]
      have hak : (a.applicationNumber == k) = false := by
        have h1 : a.applicationNumber = kr := by simpa using ha
        rw [h1]
        exact hne
      rw [List.find?_cons, hak]
      exact ih
    | false =>
      rw [if_pos (by simp)]
      rw [List.find?_cons, List.find?_cons]
      cases hak : a.applicationNumber == k with
      | true => rfl
      | false => exact ih

/-- Lookup after a replace-policy insert: the inserted key now stores the
new record, all other keys are untouched. -/
lemma lookupKey_insertRowReplace (t : List DevelopmentApplication)
    (r : DevelopmentApplication) (k : String) :
    lookupKey (insertRowReplace t r) k =
    if (r.applicationNumber == k) = true then some r else lookupKey t k := by
  unfold lookupKey insertRowReplace
  rw [List.find?_append]
  by_cases hk : (r.applicationNumber == k) = true
  · rw [if_pos hk]
    have hleft : (t.filter (fun x => !(x.applicationNumber == r.applicationNumber))).find?
        (fun x => x.applicationNumber == k) = none := by
      rw [List.find?_eq_none]
      intro x hx hpx
      have hq := (List.mem_filter.mp hx).2
      rw [Bool.not_eq_true'] at hq
      have h1 : x.applicationNumber = k := by simpa using hpx
      have h2 : r.applicationNumber = k := by simpa using hk
      rw [h1, h2] at hq
      simp at hq
    rw [hleft, Option.none_or]
    rw [List.find?_cons, hk]
  · rw [if_neg hk]
    have hkf : (r.applicationNumber == k) = false := by
      revert hk
      cases r.applicationNumber == k <;> simp
    have hright : List.find? (fun x => x.applicationNumber == k) [r] = none := by
      rw [List.find?_cons, hkf]
      rfl
    rw [hright, Option.or_none]
    exact find?_filter_ne t k r.applicationNumber
      (by revert hk; cases r.applicationNumber == k <;> simp)

/-- Folding the last-written-record accumulator from any start value. -/
lemma lastKeyed_foldl (k : String) : ∀ (rows : List DevelopmentApplication)
    (acc : Option DevelopmentApplication),
    rows.foldl (fun acc r => if r.applicationNumber == k then some r else acc) acc =
    match lastKeyed rows k with
    | some x => some x
    | none => acc := by
  intro rows
  induction rows with
  | nil =>
    intro acc
    rfl
  | cons a rs ih =>
    intro acc
    rw [List.foldl_cons, ih]
    have h2 : lastKeyed (a :: rs) k =
        match lastKeyed rs k with
        | some x => some x
        | none => if a.applicationNumber == k then some a else none := by
      unfold lastKeyed
      rw [List.foldl_cons]
      exact ih _
    rw [h2]
    cases lastKeyed rs k with
    | some x => rfl
    | none => by_cases ha : (a.applicationNumber == k) = true <;> simp [ha]

/-- Lookup after persisting a run under the replace policy: a key written
by the run stores its last written record, any other key is untouched. -/
lemma lookupKey_persistAllReplace (k : String) : ∀ (rows t : List DevelopmentApplication),
    lookupKey (persistAllReplace t rows) k =
    match lastKeyed rows k with
    | some x => some x
    | none => lookupKey t k := by
  intro rows
  induction rows with
  | nil =>
    intro t
    rfl
  | cons a rs ih =>
    intro t
    unfold persistAllReplace
    rw [List.foldl_cons]
    have hstep := ih (insertRowReplace t a)
    unfold persistAllReplace at hstep
    rw [hstep, lookupKey_insertRowReplace]
    have h2 : lastKeyed (a :: rs) k =
        match lastKeyed rs k with
        | some x => some x
        | none => if a.applicationNumber == k then some a else none := by
      unfold lastKeyed
      rw [List.foldl_cons]
      exact lastKeyed_foldl k rs _
    rw [h2]
    cases lastKeyed rs k with
    | some x => rfl
    | none => by_cases ha : (a.applicationNumber == k) = true <;> simp [ha]

/-- Running the replace-policy persistence twice over the same record list
stores the same content under every key as running it once. -/
lemma lookupKey_persistAllReplace_idem (t rows : List DevelopmentApplication)
    (k : String) :
    lookupKey (persistAllReplace (persistAllReplace t rows) rows) k =
    lookupKey (persistAllReplace t rows) k := by
  rw [lookupKey_persistAllReplace k rows (persistAllReplace t rows)]
  cases hL : lastKeyed rows k with
  | none => rfl
  | some x =>
    rw [lookupKey_persistAllReplace k rows t, hL]

/-- C9: persisting a record whose council reference is already stored never
creates a second row for that key: an ignore-policy insert leaves the table
untouched, a replace-policy insert stores the new content under the key;
and running the persistence twice over an unchanged record list yields zero
net new rows under the ignore policy and identical stored content under the
replace policy. -/
theorem C9_upsert_never_duplicates :
    (∀ (t : List DevelopmentApplication) (r : DevelopmentApplication),
      nodupKeys t = true →
      countKey (insertRowIgnore t r) r.applicationNumber ≤ 1 ∧
      countKey (insertRowReplace t r) r.applicationNumber ≤ 1)
    ∧ (∀ (t : List DevelopmentApplication) (r : DevelopmentApplication),
      hasKey t r.applicationNumber = true → insertRowIgnore t r = t)
    ∧ (∀ (t : List DevelopmentApplication) (r : DevelopmentApplication),
      lookupKey (insertRowReplace t r) r.applicationNumber = some r)
    ∧ (∀ (t rows : List DevelopmentApplication),
      persistAllIgnore (persistAllIgnore t rows) rows = persistAllIgnore t rows)
    ∧ (∀ (t rows : List DevelopmentApplication) (k : String),
      lookupKey (persistAllReplace (persistAllReplace t rows) rows) k =
        lookupKey (persistAllReplace t rows) k) := by
  refine ⟨?_, ?_, ?_, ?_, ?_⟩
  · intro t r h
    exact ⟨countKey_insertRowIgnore_le_one t r h, countKey_insertRowReplace_le_one t r⟩
  · intro t r h
    unfold insertRowIgnore
    rw [if_pos h]
  · intro t r
    rw [lookupKey_insertRowReplace, if_pos (beq_self_eq_true _)]
  · exact fun t rows => persistAllIgnore_idem t rows
  · exact fun t rows k => lookupKey_persistAllReplace_idem t rows k

/-- Closed instance of the C9 theorem at a concrete table and record. -/
theorem C9_upsert_never_duplicates_witness :
    (countKey (insertRowIgnore [] recW) recW.applicationNumber ≤ 1 ∧
     countKey (insertRowReplace [] recW) recW.applicationNumber ≤ 1) ∧
    insertRowIgnore [recW] recW = [recW] ∧
    lookupKey (insertRowReplace [] recW) recW.applicationNumber = some recW ∧
    persistAllIgnore (persistAllIgnore [] [recW]) [recW] = persistAllIgnore [] [recW] ∧
    lookupKey (persistAllReplace (persistAllReplace [] [recW]) [recW])
      recW.applicationNumber = lookupKey (persistAllReplace [] [recW]) recW.applicationNumber :=
  ⟨C9_upsert_never_duplicates.1 [] recW (by decide),
   C9_upsert_never_duplicates.2.1 [recW] recW (by decide),
   C9_upsert_never_duplicates.2.2.1 [] recW,
   C9_upsert_never_duplicates.2.2.2.1 [] [recW],
   C9_upsert_never_duplicates.2.2.2.2 [] [recW] recW.applicationNumber⟩

end BarossaScraper
